import Mathlib

/-!
Verification of the symbol table of the Lobster compiler front end
(`src/dev/src/idents.h`), shallowly embedded in Lean 4.

Modelling conventions:
* Heap pointers (`Ident *`, `Struct *`, `SharedField *`, `Function *`,
  `SubFunction *`) become indices into the owning append-only table
  (an arena), matching the spec's design note that the `shadowed` link is
  "just the previous arena index for that name".
* `std::map<string, T *>` becomes an association list `List (String × Nat)`
  holding table indices; lookups/updates/erasures mirror `find`,
  `operator[]`/assignment, and `erase`.
* Stacks (`identstack`, `scopelevels`, `withstacklevels`) are Lean lists
  with the head as the top of the stack (`push_back` = cons,
  `back()` = head, `pop_back` = tail).  `withstack` keeps the C++ vector
  orientation (append at end) because `LookupWithStruct` iterates it
  front-to-back.
* `lex.Error(msg)` (which throws and never returns) becomes an
  `Except String` result; an `.error` result leaves no mutated state, which
  matches the source except where a mutation textually precedes the throw
  (then the mutation is made part of the returned value, see `Ident.Assign`).
* The base class `Name` is not under `src/`.  Modelled from the spec:
  `NamedEntity` carries `name : string` and `idx : integer`; identifiers can
  additionally be "flagged private (module-local)", which `EndOfInclude`
  reads, so `isprivate` lives on `Ident` here.
-/

namespace Idents

/-- The `LineInfo` from `idents.h`: a `(line, fileidx, bytecodestart)` triple. -/
structure LineInfo where
  line : Int
  fileidx : Int
  bytecodestart : Int
deriving DecidableEq, Repr

instance : Inhabited LineInfo := ⟨⟨-1, -1, -1⟩⟩

/-- The `Ident` from `idents.h` (plus the `name`/`idx`/`isprivate` members of the
`Name` base class, which is outside `src/`; modelled from the spec).
`prev` is the shadowed identifier (`Ident *prev`), `sf` the owning
subfunction (`SubFunction *sf`), both as arena indices. -/
structure Ident where
  name : String
  idx : Nat
  isprivate : Bool
  line : Int
  scope : Nat
  prev : Option Nat
  sf : Option Nat
  single_assignment : Bool
  constant : Bool
  static_constant : Bool
  logvaridx : Int
deriving DecidableEq, Repr

/-- The C++ default constructor `Ident() : Ident("", -1, 0, (size_t)-1)`;
`(size_t)-1` for `scope` is the 64-bit wrap-around value. -/
instance : Inhabited Ident :=
  ⟨{ name := "", idx := 0, isprivate := false, line := -1,
     scope := 18446744073709551615, prev := none, sf := none,
     single_assignment := true, constant := false, static_constant := false,
     logvaridx := -1 }⟩

/-- The `Ident::Assign`.  The source first clears `single_assignment` and only
then raises the error for constants, and `lex.Error` throws past the already
mutated identifier; the returned pair is (identifier state after the call,
error raised if any). -/
def Ident.Assign (id : Ident) : Ident × Option String :=
  ({ id with single_assignment := false },
   if id.constant then some ("variable " ++ id.name ++ " is constant") else none)

/-- The `FieldOffset` from `idents.h` (`short structidx, offset`; the claims only
compare offsets for equality, so the 16-bit width is immaterial and both are
modelled as integers). -/
structure FieldOffset where
  structidx : Int
  offset : Int
deriving DecidableEq, Repr

instance : Inhabited FieldOffset := ⟨⟨-1, -1⟩⟩

/-- The `SharedField` from `idents.h` (with `Name`'s `name`/`idx`). -/
structure SharedField where
  name : String
  idx : Nat
  offsets : List FieldOffset
  numunique : Nat
  fo1 : FieldOffset
  foN : FieldOffset
  offsettable : Int
deriving DecidableEq, Repr

/-- The `SharedField(name, idx)` constructor. -/
def SharedField.init (name : String) (idx : Nat) : SharedField :=
  { name := name, idx := idx, offsets := [], numunique := 0,
    fo1 := default, foN := default, offsettable := -1 }

instance : Inhabited SharedField := ⟨SharedField.init "" 0⟩

/-- The `SharedField::NewFieldUse`: scan `offsets` for an equal `offset`; bump
`numunique` only when none is found; always append the new pair. -/
def SharedField.NewFieldUse (sf : SharedField) (nfo : FieldOffset) : SharedField :=
  if sf.offsets.any (fun fo => fo.offset == nfo.offset) then
    { sf with offsets := sf.offsets ++ [nfo] }
  else
    { sf with numunique := sf.numunique + 1, offsets := sf.offsets ++ [nfo] }

/-- The `UniqueField` from `idents.h`; `sf` is a `fieldtable` index and the type
tag is kept as the struct-table index the source stores in `Type::idx`. -/
structure UniqueField where
  type : Int
  sf : Nat
deriving DecidableEq, Repr

/-- The `Struct` from `idents.h` (with `Name`'s `name`/`idx`). -/
structure Struct where
  name : String
  idx : Nat
  fields : List UniqueField
  superclassidx : Int
  readonly : Bool
deriving DecidableEq, Repr

instance : Inhabited Struct :=
  ⟨{ name := "", idx := 0, fields := [], superclassidx := -1, readonly := false }⟩

/-- The `Struct::Has`: linear scan of the field list for the given shared field. -/
def Struct.Has (s : Struct) (fld : Nat) : Option UniqueField :=
  s.fields.find? (fun uf => uf.sf == fld)

/-- The `Function` from `idents.h` (with `Name`'s `name`/`idx`); `subf` and
`sibf` are arena indices (`subf` into an unused subfunction arena — no claim
exercises subfunction chains). -/
structure Function where
  name : String
  idx : Nat
  nargs : Int
  bytecodestart : Int
  subf : Option Nat
  sibf : Option Nat
  multimethod : Bool
  scopelevel : Nat
  retvals : Int
  ncalls : Int
deriving DecidableEq, Repr

/-- The C++ default constructor `Function() : Function("", 0, -1, -1)`
(`scopelevel` is an `int` set from `scopelevels.size()`; the `-1` default is
never consulted by a verified path, `0` stands in for it in `Nat`). -/
instance : Inhabited Function :=
  ⟨{ name := "", idx := 0, nargs := -1, bytecodestart := 0, subf := none,
     sibf := none, multimethod := false, scopelevel := 0, retvals := 0,
     ncalls := 0 }⟩

/-! ### Association-list model of `std::map<string, Nat>` -/

/-- The `map.find(k)` (value part). -/
def mapFind (m : List (String × Nat)) (k : String) : Option Nat :=
  match m.find? (fun p => p.1 == k) with
  | some p => some p.2
  | none => none

/-- The `map[k] = v`: replace the existing entry or add a fresh one. -/
def mapSet (m : List (String × Nat)) (k : String) (v : Nat) : List (String × Nat) :=
  match m with
  | [] => [(k, v)]
  | (k', v') :: rest => if k' == k then (k, v) :: rest else (k', v') :: mapSet rest k v

/-- The `map.erase(k)`. -/
def mapErase (m : List (String × Nat)) (k : String) : List (String × Nat) :=
  m.filter (fun p => !(p.1 == k))

theorem mapFind_nil (n : String) : mapFind [] n = none := rfl

theorem mapFind_cons (k' : String) (v' : Nat) (rest : List (String × Nat)) (n : String) :
    mapFind ((k', v') :: rest) n = if k' = n then some v' else mapFind rest n := by
  by_cases h : k' = n <;> simp [mapFind, List.find?_cons, h]

theorem mapErase_cons (k' : String) (v' : Nat) (rest : List (String × Nat)) (k : String) :
    mapErase ((k', v') :: rest) k =
      if k' = k then mapErase rest k else (k', v') :: mapErase rest k := by
  by_cases h : k' = k <;> simp [mapErase, List.filter_cons, h]

theorem mapFind_mapSet (m : List (String × Nat)) (k : String) (v : Nat) (n : String) :
    mapFind (mapSet m k v) n = if n = k then some v else mapFind m n := by
  induction m with
  | nil =>
    by_cases h : n = k
    · subst h; simp [mapSet, mapFind_cons]
    · have h' : ¬ k = n := fun hc => h hc.symm
      simp [mapSet, mapFind_cons, mapFind, h, h']
  | cons p rest ih =>
    obtain ⟨k', v'⟩ := p
    by_cases hk : k' = k
    · subst hk
      by_cases h : n = k'
      · subst h; simp [mapSet, mapFind_cons]
      · have h' : ¬ k' = n := fun hc => h hc.symm
        simp [mapSet, mapFind_cons, h, h']
    · by_cases h : k' = n
      · subst h
        simp [mapSet, mapFind_cons, hk]
      · simp [mapSet, mapFind_cons, hk, h, ih]

theorem mapFind_mapErase (m : List (String × Nat)) (k : String) (n : String) :
    mapFind (mapErase m k) n = if n = k then none else mapFind m n := by
  induction m with
  | nil =>
    by_cases h : n = k <;> simp [mapFind, mapErase, h]
  | cons p rest ih =>
    obtain ⟨k', v'⟩ := p
    by_cases hk : k' = k
    · subst hk
      by_cases h : n = k'
      · subst h; simp [mapErase_cons, ih]
      · have h' : ¬ k' = n := fun hc => h hc.symm
        simp [mapErase_cons, mapFind_cons, h, h', ih]
    · by_cases h : k' = n
      · subst h
        simp [mapErase_cons, mapFind_cons, hk]
      · simp [mapErase_cons, mapFind_cons, hk, h, ih]

/-! ### The symbol table -/

/-- The `SymbolTable` from `idents.h`.  The four `map<string, T *>` members hold
arena indices; `identstack`, `scopelevels` and `withstacklevels` are stacks
with the head as top; `withstack` keeps vector order (oldest first). -/
structure SymbolTable where
  idents : List (String × Nat)
  identtable : List Ident
  identstack : List Nat
  structs : List (String × Nat)
  structtable : List Struct
  fields : List (String × Nat)
  fieldtable : List SharedField
  functions : List (String × Nat)
  functiontable : List Function
  filenames : List String
  scopelevels : List Nat
  withstack : List (Nat × Nat)
  withstacklevels : List Nat
  uses_frame_state : Bool
deriving DecidableEq, Repr

/-- The `SymbolTable()` constructor: everything empty. -/
def initSymbolTable : SymbolTable :=
  { idents := [], identtable := [], identstack := [], structs := [],
    structtable := [], fields := [], fieldtable := [], functions := [],
    functiontable := [], filenames := [], scopelevels := [], withstack := [],
    withstacklevels := [], uses_frame_state := false }

/-- The `SymbolTable::FieldUse`: name lookup in the shared-field map. -/
def SymbolTable.FieldUse (st : SymbolTable) (name : String) : Option Nat :=
  mapFind st.fields name

/-- The match test of the `LookupWithStruct` scan
(`structtable[wp.first.idx]->Has(fld)` converted to a truth value): does the
with-stack entry's record type declare the shared field? -/
def withPred (structtable : List Struct) (fld : Nat) (wp : Nat × Nat) : Bool :=
  ((structtable.getD wp.1 default).Has fld).isSome

/-- The with-stack scan inside `SymbolTable::LookupWithStruct`: walk the
entries in order, remembering the matching entry's `Ident` in the `id`
accumulator and erroring as soon as a second entry's record type also has
the field. -/
def lookupWithLoop (structtable : List Struct) (fld : Nat) (fldname : String) :
    List (Nat × Nat) → Option Nat → Except String (Option Nat)
  | [], id => .ok id
  | wp :: rest, id =>
    if withPred structtable fld wp then
      match id with
      | some _ => .error ("access to ambiguous field: " ++ fldname)
      | none => lookupWithLoop structtable fld fldname rest (some wp.2)
    else
      lookupWithLoop structtable fld fldname rest id

/-- The `SymbolTable::LookupWithStruct`: returns `some (fld, id)` when the named
shared field is reachable through exactly one with-stack entry, `none` when
it is not a field name or no entry matches, and the ambiguity error when two
entries match. -/
def SymbolTable.LookupWithStruct (st : SymbolTable) (name : String) :
    Except String (Option (Nat × Nat)) :=
  match st.FieldUse name with
  | none => .ok none
  | some fld =>
    match lookupWithLoop st.structtable fld (st.fieldtable.getD fld default).name
        st.withstack none with
    | .error e => .error e
    | .ok (some id) => .ok (some (fld, id))
    | .ok none => .ok none

/-- The `SymbolTable::LookupLexDefOrDynScope`.  On success returns the updated
table and the index of the returned `Ident`. -/
def SymbolTable.LookupLexDefOrDynScope (st : SymbolTable) (name : String)
    (line : Int) (dynscope : Bool) (sf : Option Nat) :
    Except String (SymbolTable × Nat) :=
  let it := mapFind st.idents name
  if dynscope && it.isSome then
    .ok (st, it.getD 0)
  else
    match st.LookupWithStruct name with
    | .error e => .error e
    | .ok (some _) =>
      .error ("cannot define variable with same name as field in this scope: " ++ name)
    | .ok none =>
      let idx := st.identtable.length
      let ident : Ident :=
        { name := name, idx := idx, isprivate := false, line := line,
          scope := st.scopelevels.headD 0, prev := none, sf := sf,
          single_assignment := true, constant := false,
          static_constant := false, logvaridx := -1 }
      match it, dynscope with
      | none, _ =>
        .ok ({ st with idents := mapSet st.idents name idx,
                       identstack := idx :: st.identstack,
                       identtable := st.identtable ++ [ident] }, idx)
      | some _, true =>
        .ok ({ st with idents := mapSet st.idents name idx,
                       identstack := idx :: st.identstack,
                       identtable := st.identtable ++ [ident] }, idx)
      | some old, false =>
        if st.scopelevels.headD 0 = (st.identtable.getD old default).scope then
          .error ("identifier redefinition: " ++ name)
        else
          let ident := { ident with prev := some old }
          .ok ({ st with idents := mapSet st.idents name idx,
                         identstack := idx :: st.identstack,
                         identtable := st.identtable ++ [ident] }, idx)

/-- The `SymbolTable::LookupLexMaybe`. -/
def SymbolTable.LookupLexMaybe (st : SymbolTable) (name : String) : Option Nat :=
  mapFind st.idents name

/-- The `SymbolTable::ScopeStart`: snapshot the identifier-stack and with-stack
sizes. -/
def SymbolTable.ScopeStart (st : SymbolTable) : SymbolTable :=
  { st with scopelevels := st.identstack.length :: st.scopelevels,
            withstacklevels := st.withstack.length :: st.withstacklevels }

/-- One iteration of the `ScopeCleanup` while-loop body for the popped
identifier `i`: if the name is still in the live map, restore the shadowed
binding or erase the entry. -/
def popStep (tbl : List Ident) (m : List (String × Nat)) (i : Nat) :
    List (String × Nat) :=
  let id := tbl.getD i default
  match mapFind m id.name with
  | none => m
  | some _ =>
    match id.prev with
    | some p => mapSet m id.name p
    | none => mapErase m id.name

/-- The `ScopeCleanup` while-loop: pop identifiers while the stack is larger
than the saved snapshot, applying `popStep` for each. -/
def cleanupIdents (tbl : List Ident) (target : Nat) :
    List Nat → List (String × Nat) → List Nat × List (String × Nat)
  | [], m => ([], m)
  | i :: rest, m =>
    if target < rest.length + 1 then cleanupIdents tbl target rest (popStep tbl m i)
    else (i :: rest, m)

/-- The `SymbolTable::ScopeCleanup`. -/
def SymbolTable.ScopeCleanup (st : SymbolTable) : SymbolTable :=
  let p := cleanupIdents st.identtable (st.scopelevels.headD 0) st.identstack st.idents
  { st with identstack := p.1, idents := p.2,
            scopelevels := st.scopelevels.tail,
            withstack := st.withstack.take (st.withstacklevels.headD 0),
            withstacklevels := st.withstacklevels.tail }

/-- The `SymbolTable::AddWithStruct` (the `assert(t.idx >= 0)` is implicit in
using `Nat` for the type's struct index). -/
def SymbolTable.AddWithStruct (st : SymbolTable) (t : Nat) (id : Nat) :
    Except String SymbolTable :=
  if st.withstack.any (fun wp => wp.1 == t) then
    .error "type used twice in the same scope with ::"
  else
    .ok { st with withstack := st.withstack ++ [(t, id)] }

/-- The condition of the `assert(!it->second->prev)` inside
`SymbolTable::EndOfInclude`: every private live binding must have no
shadowed predecessor. -/
def SymbolTable.EndOfIncludeCheck (st : SymbolTable) : Bool :=
  st.idents.all (fun p =>
    !(st.identtable.getD p.2 default).isprivate ||
      (st.identtable.getD p.2 default).prev == none)

/-- The `SymbolTable::EndOfInclude` (release semantics of the loop: every live
binding whose identifier is private is erased from the map). -/
def SymbolTable.EndOfInclude (st : SymbolTable) : SymbolTable :=
  { st with idents :=
      st.idents.filter (fun p => !(st.identtable.getD p.2 default).isprivate) }

/-- The `SymbolTable::StructDecl`.  (`structs[name]` default-inserts a null entry
that is either overwritten on success or dead after the thrown error; the
map model keeps only the meaningful binding.) -/
def SymbolTable.StructDecl (st : SymbolTable) (name : String) :
    Except String (SymbolTable × Nat) :=
  match mapFind st.structs name with
  | some _ => .error ("double declaration of type: " ++ name)
  | none =>
    let idx := st.structtable.length
    let s : Struct := { name := name, idx := idx, fields := [],
                        superclassidx := -1, readonly := false }
    .ok ({ st with structs := mapSet st.structs name idx,
                   structtable := st.structtable ++ [s] }, idx)

/-- The `SymbolTable::FieldDecl` (`st` parameter of the source is passed as its
struct-table index `stidx`, from which `st->idx` is read). -/
def SymbolTable.FieldDecl (st : SymbolTable) (name : String) (idx : Int)
    (stidx : Nat) : SymbolTable × Nat :=
  let nfo : FieldOffset := { structidx := Int.ofNat stidx, offset := idx }
  match mapFind st.fields name with
  | some fi =>
    let fld := st.fieldtable.getD fi default
    ({ st with fieldtable := st.fieldtable.set fi (fld.NewFieldUse nfo) }, fi)
  | none =>
    let fi := st.fieldtable.length
    let fld := SharedField.init name fi
    ({ st with fields := mapSet st.fields name fi,
               fieldtable := st.fieldtable ++ [fld.NewFieldUse nfo] }, fi)

/-- The arity walk `for (auto f = fit->second; f; f = f->sibf)` of
`FunctionDecl`; `fuel` bounds the walk (the source chains are acyclic, and
every verified statement supplies `functiontable.length` as fuel). -/
def findArity (tbl : List Function) (nargs : Int) :
    Nat → Option Nat → Option Nat
  | _, none => none
  | 0, some _ => none
  | fuel + 1, some fi =>
    if (tbl.getD fi default).nargs = nargs then some fi
    else findArity tbl nargs fuel (tbl.getD fi default).sibf

/-- The `SymbolTable::FunctionDecl`.  On success returns the updated table and
the index of the returned `Function`.  Note the sibling splice: the new
function is linked *behind* the existing map head (`f->sibf =
fit->second->sibf; fit->second->sibf = f;`), and the map entry is not
updated. -/
def SymbolTable.FunctionDecl (st : SymbolTable) (name : String) (nargs : Int) :
    Except String (SymbolTable × Nat) :=
  match mapFind st.functions name with
  | some head =>
    if (st.functiontable.getD head default).scopelevel ≠ st.scopelevels.length then
      .error ("cannot define a variation of function " ++ name ++
              " at a different scope level")
    else
      match findArity st.functiontable nargs st.functiontable.length (some head) with
      | some fi => .ok (st, fi)
      | none =>
        let idx := st.functiontable.length
        let hd := st.functiontable.getD head default
        let f : Function :=
          { name := name, idx := idx, nargs := nargs, bytecodestart := 0,
            subf := none, sibf := hd.sibf, multimethod := false,
            scopelevel := st.scopelevels.length, retvals := 0, ncalls := 0 }
        .ok ({ st with functiontable :=
                 (st.functiontable ++ [f]).set head { hd with sibf := some idx } },
             idx)
  | none =>
    let idx := st.functiontable.length
    let f : Function :=
      { name := name, idx := idx, nargs := nargs, bytecodestart := 0,
        subf := none, sibf := none, multimethod := false,
        scopelevel := st.scopelevels.length, retvals := 0, ncalls := 0 }
    .ok ({ st with functions := mapSet st.functions name idx,
                   functiontable := st.functiontable ++ [f] }, idx)

/-- The `SymbolTable::FindFunction`. -/
def SymbolTable.FindFunction (st : SymbolTable) (name : String) : Option Nat :=
  mapFind st.functions name

/-- The `SymbolTable::UnregisterStruct` (the map entry is asserted to exist and
erased; the struct table is untouched). -/
def SymbolTable.UnregisterStruct (st : SymbolTable) (sidx : Nat) : SymbolTable :=
  { st with structs := mapErase st.structs (st.structtable.getD sidx default).name }

/-- The `SymbolTable::UnregisterFun` (erase-if-present; idempotent). -/
def SymbolTable.UnregisterFun (st : SymbolTable) (fidx : Nat) : SymbolTable :=
  { st with functions := mapErase st.functions (st.functiontable.getD fidx default).name }

/-! ### Serialization (read mode) -/

/-- The persisted artifact layout, in the fixed order `Serialize` writes it:
version stamp, `uses_frame_state`, the four entity tables, bytecode,
filenames, line numbers.  Modelled from the spec: the `Serializer` class
itself is not under `src/`. -/
structure SerializedProgram where
  vers : String
  uses_frame_state : Bool
  identtable : List Ident
  functiontable : List Function
  structtable : List Struct
  fieldtable : List SharedField
  code : List Int
  filenames : List String
  linenumbers : List LineInfo
deriving DecidableEq, Repr

/-- The `SymbolTable::Serialize` with a read buffer (`ser.rbuf` set): `ser(vers)`
reads the stamp first and the mismatch check throws before any further
`ser(...)` call; on success every subsequent field is read in order.
The `Serializer` internals are modelled from the spec (§4.7); the check
order and the error are from the source. -/
def SymbolTable.SerializeRead (st : SymbolTable) (curvers : String)
    (buf : SerializedProgram) :
    Except String (SymbolTable × List Int × List LineInfo) :=
  let vers := buf.vers
  if vers ≠ curvers then
    .error "cannot load bytecode from a different version of the compiler"
  else
    .ok ({ st with uses_frame_state := buf.uses_frame_state,
                   identtable := buf.identtable,
                   functiontable := buf.functiontable,
                   structtable := buf.structtable,
                   fieldtable := buf.fieldtable,
                   filenames := buf.filenames },
         buf.code, buf.linenumbers)

/-! ### The public operations as a step machine -/

/-- One public mutating operation on the symbol table.  `markPrivate` is
modelled from the spec: identifiers are "flagged private (module-local)" by
the include machinery after declaration (the flag setter is outside
`src/`; `EndOfInclude` reads the flag). -/
inductive SymOp where
  | scopeStart : SymOp
  | scopeEnd : SymOp
  | declareIdent (name : String) (line : Int) (dynscope : Bool) (sf : Option Nat) : SymOp
  | structDecl (name : String) : SymOp
  | fieldDecl (name : String) (idx : Int) (stidx : Nat) : SymOp
  | functionDecl (name : String) (nargs : Int) : SymOp
  | addWithStruct (t : Nat) (id : Nat) : SymOp
  | endOfInclude : SymOp
  | unregisterStruct (sidx : Nat) : SymOp
  | unregisterFun (fidx : Nat) : SymOp
  | markPrivate (i : Nat) : SymOp
deriving DecidableEq, Repr

/-- Execute one operation. -/
def stepOp (op : SymOp) (st : SymbolTable) : Except String SymbolTable :=
  match op with
  | .scopeStart => .ok st.ScopeStart
  | .scopeEnd => .ok st.ScopeCleanup
  | .declareIdent name line dynscope sf =>
    match st.LookupLexDefOrDynScope name line dynscope sf with
    | .error e => .error e
    | .ok (st', _) => .ok st'
  | .structDecl name =>
    match st.StructDecl name with
    | .error e => .error e
    | .ok (st', _) => .ok st'
  | .fieldDecl name idx stidx => .ok (st.FieldDecl name idx stidx).1
  | .functionDecl name nargs =>
    match st.FunctionDecl name nargs with
    | .error e => .error e
    | .ok (st', _) => .ok st'
  | .addWithStruct t id => st.AddWithStruct t id
  | .endOfInclude => .ok st.EndOfInclude
  | .unregisterStruct sidx => .ok (st.UnregisterStruct sidx)
  | .unregisterFun fidx => .ok (st.UnregisterFun fidx)
  | .markPrivate i =>
    .ok { st with identtable :=
            st.identtable.set i { st.identtable.getD i default with isprivate := true } }

/-- Execute a list of operations, stopping at the first compile error. -/
def execOps : List SymOp → SymbolTable → Except String SymbolTable
  | [], st => .ok st
  | op :: ops, st =>
    match stepOp op st with
    | .error e => .error e
    | .ok st' => execOps ops st'

/-- Well-nested scope bodies made of non-dynamic identifier declarations and
matching `scopeStart`/`scopeEnd` pairs (the operation vocabulary of claim
C1). -/
inductive Balanced : List SymOp → Prop where
  | nil : Balanced []
  | decl {ops : List SymOp} (name : String) (line : Int) (sf : Option Nat) :
      Balanced ops → Balanced (.declareIdent name line false sf :: ops)
  | nest {inner rest : List SymOp} :
      Balanced inner → Balanced rest →
      Balanced (.scopeStart :: inner ++ .scopeEnd :: rest)

/-! ### Generic list-table helpers -/

theorem getD_append_left {α : Type} [Inhabited α] (l r : List α) (i : Nat)
    (h : i < l.length) : (l ++ r).getD i default = l.getD i default := by
  rw [List.getD_eq_getElem?_getD, List.getD_eq_getElem?_getD, List.getElem?_append,
    if_pos h]

theorem getD_append_length {α : Type} [Inhabited α] (l : List α) (a : α) (r : List α) :
    (l ++ a :: r).getD l.length default = a := by
  rw [List.getD_eq_getElem?_getD, List.getElem?_append_right (le_refl _)]
  simp

theorem getD_set_self {α : Type} [Inhabited α] (l : List α) (i : Nat) (a : α)
    (h : i < l.length) : (l.set i a).getD i default = a := by
  rw [List.getD_eq_getElem?_getD, List.getElem?_set_self h]
  rfl

theorem getD_set_ne {α : Type} [Inhabited α] (l : List α) (i j : Nat) (a : α)
    (h : i ≠ j) : (l.set i a).getD j default = l.getD j default := by
  rw [List.getD_eq_getElem?_getD, List.getElem?_set_ne h, ← List.getD_eq_getElem?_getD]

/-! ### Claim C4: `NewFieldUse` counts distinct offsets, order-independently -/

theorem NewFieldUse_offsets (sf : SharedField) (x : FieldOffset) :
    (sf.NewFieldUse x).offsets = sf.offsets ++ [x] := by
  unfold SharedField.NewFieldUse
  split <;> rfl

theorem NewFieldUse_numunique (sf : SharedField) (x : FieldOffset) :
    (sf.NewFieldUse x).numunique =
      if x.offset ∈ sf.offsets.map FieldOffset.offset then sf.numunique
      else sf.numunique + 1 := by
  have hiff : (sf.offsets.any (fun fo => fo.offset == x.offset) = true)
      ↔ x.offset ∈ sf.offsets.map FieldOffset.offset := by
    simp [List.any_eq_true, List.mem_map]
  unfold SharedField.NewFieldUse
  by_cases h : x.offset ∈ sf.offsets.map FieldOffset.offset
  · rw [if_pos (hiff.mpr h), if_pos h]
  · rw [if_neg (fun hc => h (hiff.mp hc)), if_neg h]

theorem toFinset_card_append_singleton (l : List Int) (x : Int) :
    ((l ++ [x]).toFinset).card
      = if x ∈ l.toFinset then l.toFinset.card else l.toFinset.card + 1 := by
  have h1 : ([x] : List Int).toFinset = {x} := by simp
  rw [List.toFinset_append, h1, Finset.union_comm, ← Finset.insert_eq]
  by_cases h : x ∈ l.toFinset
  · rw [if_pos h, Finset.insert_eq_self.mpr h]
  · rw [if_neg h, Finset.card_insert_of_not_mem h]

theorem NewFieldUse_invariant (sf : SharedField) (x : FieldOffset)
    (h : sf.numunique = (sf.offsets.map FieldOffset.offset).toFinset.card) :
    (sf.NewFieldUse x).numunique
      = ((sf.NewFieldUse x).offsets.map FieldOffset.offset).toFinset.card := by
  rw [NewFieldUse_numunique, NewFieldUse_offsets, List.map_append]
  simp only [List.map_cons, List.map_nil]
  rw [toFinset_card_append_singleton]
  by_cases hm : x.offset ∈ sf.offsets.map FieldOffset.offset
  · rw [if_pos hm, if_pos (List.mem_toFinset.mpr hm), h]
  · rw [if_neg hm, if_neg (fun hc => hm (List.mem_toFinset.mp hc)), h]

theorem foldl_NewFieldUse_offsets (l : List FieldOffset) :
    ∀ sf : SharedField, (l.foldl SharedField.NewFieldUse sf).offsets = sf.offsets ++ l := by
  induction l with
  | nil => intro sf; simp
  | cons x t ih =>
    intro sf
    rw [List.foldl_cons, ih, NewFieldUse_offsets, List.append_assoc,
      List.singleton_append]

theorem foldl_NewFieldUse_invariant (l : List FieldOffset) :
    ∀ sf : SharedField,
      sf.numunique = (sf.offsets.map FieldOffset.offset).toFinset.card →
      (l.foldl SharedField.NewFieldUse sf).numunique
        = (((l.foldl SharedField.NewFieldUse sf).offsets).map FieldOffset.offset).toFinset.card := by
  induction l with
  | nil => intro sf h; simpa using h
  | cons x t ih =>
    intro sf h
    exact ih _ (NewFieldUse_invariant sf x h)

/-- Claim C4: for every freshly constructed `SharedField`, after any
sequence of `NewFieldUse` registrations `numunique` equals the number of
distinct offset values among the registered pairs, and is therefore
independent of the order of the registrations. -/
theorem c4_register_use_counts_unique_offsets
    (name : String) (fidx : Nat) (l l' : List FieldOffset) :
    (l.foldl SharedField.NewFieldUse (SharedField.init name fidx)).numunique
      = (l.map FieldOffset.offset).toFinset.card
    ∧ (l.Perm l' →
        (l.foldl SharedField.NewFieldUse (SharedField.init name fidx)).numunique
          = (l'.foldl SharedField.NewFieldUse (SharedField.init name fidx)).numunique) := by
  have base : ∀ ll : List FieldOffset,
      (ll.foldl SharedField.NewFieldUse (SharedField.init name fidx)).numunique
        = (ll.map FieldOffset.offset).toFinset.card := by
    intro ll
    have h0 : (SharedField.init name fidx).numunique
        = (((SharedField.init name fidx).offsets).map FieldOffset.offset).toFinset.card := by
      simp [SharedField.init]
    have hinv := foldl_NewFieldUse_invariant ll _ h0
    rw [hinv, foldl_NewFieldUse_offsets]
    simp [SharedField.init]
  refine ⟨base l, fun hp => ?_⟩
  rw [base l, base l']
  congr 1
  exact List.toFinset_eq_of_perm _ _ (hp.map FieldOffset.offset)

/-- Witness for C4: registering offsets `[5, 5, 7, 5, 7]` yields
`numunique = 2`, and a permuted registration order yields the same count. -/
theorem c4_register_use_witness :
    (([⟨0, 5⟩, ⟨1, 5⟩, ⟨2, 7⟩, ⟨3, 5⟩, ⟨4, 7⟩] : List FieldOffset).foldl
        SharedField.NewFieldUse (SharedField.init "x" 0)).numunique = 2
    ∧ (([⟨2, 7⟩, ⟨0, 5⟩, ⟨4, 7⟩, ⟨1, 5⟩, ⟨3, 5⟩] : List FieldOffset).foldl
        SharedField.NewFieldUse (SharedField.init "x" 0)).numunique
      = (([⟨0, 5⟩, ⟨1, 5⟩, ⟨2, 7⟩, ⟨3, 5⟩, ⟨4, 7⟩] : List FieldOffset).foldl
        SharedField.NewFieldUse (SharedField.init "x" 0)).numunique := by
  refine ⟨by decide, ?_⟩
  exact ((c4_register_use_counts_unique_offsets "x" 0
    [⟨0, 5⟩, ⟨1, 5⟩, ⟨2, 7⟩, ⟨3, 5⟩, ⟨4, 7⟩]
    [⟨2, 7⟩, ⟨0, 5⟩, ⟨4, 7⟩, ⟨1, 5⟩, ⟨3, 5⟩]).2 (by decide)).symm

/-! ### Claim C3: `Assign` on a constant errors, but mutates first -/

/-- A constant identifier that has never been assigned. -/
def c3Ident : Ident :=
  { name := "v", idx := 0, isprivate := false, line := 1, scope := 0,
    prev := none, sf := none, single_assignment := true, constant := true,
    static_constant := false, logvaridx := -1 }

/-- Counterexample to C3 as stated: `Assign` on a constant identifier whose
`single_assignment` flag is still `true` raises the error but has already
cleared the flag — the identifier does not keep its prior state. -/
theorem c3_counterexample :
    (Ident.Assign c3Ident).2 = some "variable v is constant"
    ∧ c3Ident.single_assignment = true
    ∧ (Ident.Assign c3Ident).1.single_assignment = false := by
  exact ⟨rfl, rfl, rfl⟩

/-- C3 amended: `Assign` on a constant identifier always signals the
constant-assignment error, but it clears `single_assignment` before
signalling, so after the failed call the flag is `false` (the only mutation). -/
theorem c3_assign_constant_always_errors (id : Ident) (h : id.constant = true) :
    (Ident.Assign id).2 = some ("variable " ++ id.name ++ " is constant")
    ∧ (Ident.Assign id).1 = { id with single_assignment := false } := by
  unfold Ident.Assign
  rw [if_pos h]
  exact ⟨rfl, rfl⟩

/-- Witness for the amended C3 at a concrete constant identifier. -/
theorem c3_assign_witness :
    (Ident.Assign c3Ident).2 = some ("variable " ++ c3Ident.name ++ " is constant")
    ∧ (Ident.Assign c3Ident).1 = { c3Ident with single_assignment := false } :=
  c3_assign_constant_always_errors c3Ident rfl

/-! ### Claim C7: version mismatch aborts deserialization -/

/-- Claim C7: deserializing (`Serialize` with a read buffer) compares the
version stamp first and on any mismatch fails with the fatal error before
any table, bytecode, filename or line-number data is produced. -/
theorem c7_version_mismatch_aborts_load (st : SymbolTable) (curvers : String)
    (buf : SerializedProgram) (h : buf.vers ≠ curvers) :
    st.SerializeRead curvers buf
      = .error "cannot load bytecode from a different version of the compiler" := by
  unfold SymbolTable.SerializeRead
  rw [if_pos h]

/-- Witness for C7 at a concrete stale buffer. -/
theorem c7_version_witness :
    initSymbolTable.SerializeRead "Jan  1 2015"
      { vers := "Feb  2 2014", uses_frame_state := true,
        identtable := [default], functiontable := [], structtable := [],
        fieldtable := [], code := [1, 2], filenames := ["a.lobster"],
        linenumbers := [default] }
      = .error "cannot load bytecode from a different version of the compiler" :=
  c7_version_mismatch_aborts_load initSymbolTable "Jan  1 2015" _ (by decide)

/-! ### Claim C10: dynamic-scope redeclare of a live name is a no-op -/

/-- Claim C10: `LookupLexDefOrDynScope` with `dynscope = true` and an
existing live binding returns that binding and the table unchanged — no
identifier is created, no table or stack is touched, and no error (in
particular not the with-scope field-collision error) can be raised. -/
theorem c10_dynscope_redeclare_is_noop (st : SymbolTable) (name : String)
    (line : Int) (sf : Option Nat) (i : Nat)
    (h : mapFind st.idents name = some i) :
    st.LookupLexDefOrDynScope name line true sf = .ok (st, i) := by
  unfold SymbolTable.LookupLexDefOrDynScope
  rw [h]
  rfl

/-- Witness for C10 at a concrete table with a live binding. -/
theorem c10_dynscope_witness :
    ({ initSymbolTable with idents := [("x", 3)] }
      : SymbolTable).LookupLexDefOrDynScope "x" 0 true none
      = .ok ({ initSymbolTable with idents := [("x", 3)] }, 3) :=
  c10_dynscope_redeclare_is_noop _ "x" 0 none 3 rfl

/-! ### Claim C2: where `FunctionDecl` links a new overload -/

/-- Counterexample to C2 as stated: after declaring `f/1` and then `f/2`,
`FindFunction "f"` still returns the function at index `0` (the original
head, arity 1), not the newly created function at index `1` (arity 2); the
new function is spliced in *behind* the head (`head.sibf = some 1`). -/
theorem c2_counterexample :
    ((execOps [SymOp.functionDecl "f" 1, SymOp.functionDecl "f" 2]
        initSymbolTable).map (fun st =>
          (st.FindFunction "f", st.functiontable.length,
           (st.functiontable.getD 0 default).nargs,
           (st.functiontable.getD 0 default).sibf,
           (st.functiontable.getD 1 default).nargs))
      = .ok (some 0, 2, 1, some 1, 2))
    ∧ (some 0 : Option Nat) ≠ some 1 := by
  exact ⟨rfl, by decide⟩

/-- C2 amended: when `FunctionDecl` is called for a name with an existing
registered function, at the same scope level, with an arity not in the
chain, the new `Function` is linked *immediately behind* the existing chain
head: `FindFunction` still returns the old head, the old head's `sibf` now
points at the new function, and the new function's `sibf` threads the
previously existing rest of the chain. -/
theorem c2_new_overload_links_behind_head (st : SymbolTable) (name : String)
    (nargs : Int) (head : Nat)
    (hfind : mapFind st.functions name = some head)
    (hlt : head < st.functiontable.length)
    (hsl : (st.functiontable.getD head default).scopelevel = st.scopelevels.length)
    (hna : findArity st.functiontable nargs st.functiontable.length (some head) = none) :
    ∃ st', st.FunctionDecl name nargs = .ok (st', st.functiontable.length)
      ∧ st'.FindFunction name = some head
      ∧ (st'.functiontable.getD head default).sibf = some st.functiontable.length
      ∧ (st'.functiontable.getD st.functiontable.length default).sibf
          = (st.functiontable.getD head default).sibf
      ∧ (st'.functiontable.getD st.functiontable.length default).nargs = nargs
      ∧ (st'.functiontable.getD st.functiontable.length default).name = name := by
  have hne : ¬ (st.functiontable.getD head default).scopelevel ≠ st.scopelevels.length :=
    fun hc => hc hsl
  have hne2 : head ≠ st.functiontable.length := Nat.ne_of_lt hlt
  unfold SymbolTable.FunctionDecl
  rw [hfind]
  simp only [if_neg hne, hna]
  refine ⟨_, rfl, hfind, ?_, ?_, ?_, ?_⟩
  · rw [getD_set_self]
    rw [List.length_append]
    exact Nat.lt_of_lt_of_le hlt (Nat.le_add_right _ _)
  · rw [getD_set_ne _ _ _ _ hne2, getD_append_length]
  · rw [getD_set_ne _ _ _ _ hne2, getD_append_length]
  · rw [getD_set_ne _ _ _ _ hne2, getD_append_length]

/-- The table with just `f/1` declared, for the C2 witness. -/
def c2State : SymbolTable :=
  { initSymbolTable with
    functions := [("f", 0)],
    functiontable := [{ name := "f", idx := 0, nargs := 1, bytecodestart := 0,
                        subf := none, sibf := none, multimethod := false,
                        scopelevel := 0, retvals := 0, ncalls := 0 }] }

/-- Witness for the amended C2: declaring `f/2` over `c2State`. -/
theorem c2_overload_witness :
    ∃ st', c2State.FunctionDecl "f" 2 = .ok (st', 1)
      ∧ st'.FindFunction "f" = some 0
      ∧ (st'.functiontable.getD 0 default).sibf = some 1
      ∧ (st'.functiontable.getD 1 default).sibf = none
      ∧ (st'.functiontable.getD 1 default).nargs = 2
      ∧ (st'.functiontable.getD 1 default).name = "f" :=
  c2_new_overload_links_behind_head c2State "f" 2 0 rfl (by decide) rfl rfl

/-! ### Claim C5: redefinition check of the non-dynamic declare path -/

/-- Characterization of `LookupLexDefOrDynScope` with `dynscope = false`:
the with-struct collision check runs first, then the fresh/shadow/redefine
three-way split on the live binding. -/
theorem lookupLexDef_nodyn (st : SymbolTable) (name : String) (line : Int)
    (sf : Option Nat) :
    st.LookupLexDefOrDynScope name line false sf =
      match st.LookupWithStruct name with
      | .error e => .error e
      | .ok (some _) =>
        .error ("cannot define variable with same name as field in this scope: " ++ name)
      | .ok none =>
        match mapFind st.idents name with
        | none =>
          .ok ({ st with
                 idents := mapSet st.idents name st.identtable.length,
                 identstack := st.identtable.length :: st.identstack,
                 identtable := st.identtable ++
                   [⟨name, st.identtable.length, false, line, st.scopelevels.headD 0,
                     none, sf, true, false, false, -1⟩] }, st.identtable.length)
        | some old =>
          if st.scopelevels.headD 0 = (st.identtable.getD old default).scope then
            .error ("identifier redefinition: " ++ name)
          else
            .ok ({ st with
                   idents := mapSet st.idents name st.identtable.length,
                   identstack := st.identtable.length :: st.identstack,
                   identtable := st.identtable ++
                     [⟨name, st.identtable.length, false, line, st.scopelevels.headD 0,
                       some old, sf, true, false, false, -1⟩] }, st.identtable.length) := by
  unfold SymbolTable.LookupLexDefOrDynScope
  cases hws : st.LookupWithStruct name with
  | error e => rfl
  | ok o =>
    cases o with
    | some v => rfl
    | none =>
      cases hit : mapFind st.idents name with
      | none => rfl
      | some old => rfl

/-- Claim C5: a non-dynamic declare of a name whose live binding was created
at the current scope depth (and which does not collide with a with-scope
field) fails with the redefinition error, while one whose live binding was
created at a strictly shallower scope succeeds, installs the fresh `Ident`
as the live binding, and links its `prev` to the shadowed binding. -/
theorem c5_redefinition_check (st : SymbolTable) (name : String) (line : Int)
    (sf : Option Nat) (old : Nat)
    (hfind : mapFind st.idents name = some old)
    (hws : st.LookupWithStruct name = .ok none) :
    ((st.identtable.getD old default).scope = st.scopelevels.headD 0 →
      st.LookupLexDefOrDynScope name line false sf
        = .error ("identifier redefinition: " ++ name))
    ∧ ((st.identtable.getD old default).scope < st.scopelevels.headD 0 →
      ∃ st', st.LookupLexDefOrDynScope name line false sf
          = .ok (st', st.identtable.length)
        ∧ mapFind st'.idents name = some st.identtable.length
        ∧ (st'.identtable.getD st.identtable.length default).prev = some old
        ∧ (st'.identtable.getD st.identtable.length default).name = name
        ∧ (st'.identtable.getD st.identtable.length default).scope
            = st.scopelevels.headD 0) := by
  constructor
  · intro hsc
    simp only [lookupLexDef_nodyn, hws, hfind]
    rw [if_pos hsc.symm]
  · intro hsc
    have hne : ¬ st.scopelevels.headD 0 = (st.identtable.getD old default).scope :=
      ne_of_gt hsc
    simp only [lookupLexDef_nodyn, hws, hfind]
    rw [if_neg hne]
    refine ⟨_, rfl, ?_, ?_, ?_, ?_⟩
    · simp [mapFind_mapSet]
    · simp only [getD_append_length]
    · simp only [getD_append_length]
    · simp only [getD_append_length]

/-- A table whose live `x` was declared at the current scope (depth snapshot
0), for part one of the C5 witness. -/
def c5StateA : SymbolTable :=
  { initSymbolTable with
    idents := [("x", 0)],
    identtable := [⟨"x", 0, false, 1, 0, none, none, true, false, false, -1⟩],
    identstack := [0],
    scopelevels := [0] }

/-- A table whose live `x` was declared at an enclosing scope (snapshot 0,
current snapshot 1), for part two of the C5 witness. -/
def c5StateB : SymbolTable :=
  { initSymbolTable with
    idents := [("x", 0)],
    identtable := [⟨"x", 0, false, 1, 0, none, none, true, false, false, -1⟩],
    identstack := [0],
    scopelevels := [1, 0] }

/-- Witness for C5: same-snapshot redeclare errors; deeper-scope redeclare
shadows. -/
theorem c5_redefinition_witness :
    (c5StateA.LookupLexDefOrDynScope "x" 5 false none
      = .error "identifier redefinition: x")
    ∧ (∃ st', c5StateB.LookupLexDefOrDynScope "x" 5 false none = .ok (st', 1)
        ∧ mapFind st'.idents "x" = some 1
        ∧ (st'.identtable.getD 1 default).prev = some 0
        ∧ (st'.identtable.getD 1 default).name = "x"
        ∧ (st'.identtable.getD 1 default).scope = 1) :=
  ⟨(c5_redefinition_check c5StateA "x" 5 none 0 rfl rfl).1 rfl,
   (c5_redefinition_check c5StateB "x" 5 none 0 rfl rfl).2 (by decide)⟩

/-! ### Claim C6: with-stack field resolution -/

theorem lookupWithLoop_count_zero (stbl : List Struct) (fld : Nat) (nm : String)
    (ws : List (Nat × Nat)) (acc : Option Nat)
    (h : ws.countP (withPred stbl fld) = 0) :
    lookupWithLoop stbl fld nm ws acc = .ok acc := by
  induction ws generalizing acc with
  | nil => rfl
  | cons wp rest ih =>
    rw [List.countP_cons] at h
    have hp : ¬ withPred stbl fld wp = true := by
      intro hb
      rw [if_pos hb] at h
      omega
    have hr : rest.countP (withPred stbl fld) = 0 := by omega
    unfold lookupWithLoop
    rw [if_neg hp]
    exact ih _ hr

theorem lookupWithLoop_acc_some_error (stbl : List Struct) (fld : Nat) (nm : String)
    (ws : List (Nat × Nat)) (a : Nat)
    (h : 1 ≤ ws.countP (withPred stbl fld)) :
    lookupWithLoop stbl fld nm ws (some a)
      = .error ("access to ambiguous field: " ++ nm) := by
  induction ws with
  | nil => simp [List.countP_nil] at h
  | cons wp rest ih =>
    rw [List.countP_cons] at h
    by_cases hp : withPred stbl fld wp = true
    · unfold lookupWithLoop
      rw [if_pos hp]
    · unfold lookupWithLoop
      rw [if_neg hp]
      rw [if_neg hp] at h
      exact ih (by omega)

theorem lookupWithLoop_count_one (stbl : List Struct) (fld : Nat) (nm : String)
    (ws : List (Nat × Nat)) (wp : Nat × Nat)
    (hmem : wp ∈ ws) (hp : withPred stbl fld wp = true)
    (h : ws.countP (withPred stbl fld) = 1) :
    lookupWithLoop stbl fld nm ws none = .ok (some wp.2) := by
  induction ws with
  | nil => cases hmem
  | cons hd rest ih =>
    rw [List.countP_cons] at h
    by_cases hph : withPred stbl fld hd = true
    · rw [if_pos hph] at h
      have hr : rest.countP (withPred stbl fld) = 0 := by omega
      have hwp : wp = hd := by
        cases List.mem_cons.mp hmem with
        | inl he => exact he
        | inr hm => exact absurd hp ((List.countP_eq_zero.mp hr) wp hm)
      unfold lookupWithLoop
      rw [if_pos hph]
      rw [hwp]
      exact lookupWithLoop_count_zero stbl fld nm rest (some hd.2) hr
    · rw [if_neg hph] at h
      have hwp : wp ∈ rest := by
        cases List.mem_cons.mp hmem with
        | inl he => exact absurd (he ▸ hp) hph
        | inr hm => exact hm
      unfold lookupWithLoop
      rw [if_neg hph]
      exact ih hwp (by omega)

theorem lookupWithLoop_count_two (stbl : List Struct) (fld : Nat) (nm : String)
    (ws : List (Nat × Nat))
    (h : 2 ≤ ws.countP (withPred stbl fld)) :
    lookupWithLoop stbl fld nm ws none
      = .error ("access to ambiguous field: " ++ nm) := by
  induction ws with
  | nil => simp [List.countP_nil] at h
  | cons hd rest ih =>
    rw [List.countP_cons] at h
    by_cases hph : withPred stbl fld hd = true
    · rw [if_pos hph] at h
      unfold lookupWithLoop
      rw [if_pos hph]
      exact lookupWithLoop_acc_some_error stbl fld nm rest hd.2 (by omega)
    · rw [if_neg hph] at h
      unfold lookupWithLoop
      rw [if_neg hph]
      exact ih (by omega)

/-- The number of with-stack entries whose record type declares `fld`. -/
def withMatches (st : SymbolTable) (fld : Nat) : Nat :=
  st.withstack.countP (withPred st.structtable fld)

/-- Claim C6: `LookupWithStruct` scans the whole with-stack — no shared
field of that name, or no matching entry, yields `none` without error; two
or more matching entries yield the ambiguous-field error; exactly one
matching entry yields that shared field paired with the entry's `Ident`. -/
theorem c6_with_stack_resolution (st : SymbolTable) (name : String) :
    (st.FieldUse name = none → st.LookupWithStruct name = .ok none)
    ∧ (∀ fld, st.FieldUse name = some fld →
        ((withMatches st fld = 0 → st.LookupWithStruct name = .ok none)
         ∧ (2 ≤ withMatches st fld →
             st.LookupWithStruct name
               = .error ("access to ambiguous field: "
                   ++ (st.fieldtable.getD fld default).name))
         ∧ (∀ wp, wp ∈ st.withstack → withPred st.structtable fld wp = true →
             withMatches st fld = 1 →
             st.LookupWithStruct name = .ok (some (fld, wp.2))))) := by
  refine ⟨?_, fun fld hf => ⟨?_, ?_, ?_⟩⟩
  · intro h
    unfold SymbolTable.LookupWithStruct
    rw [h]
  · intro h0
    unfold SymbolTable.LookupWithStruct
    simp only [hf]
    rw [lookupWithLoop_count_zero _ _ _ _ _ h0]
  · intro h2
    unfold SymbolTable.LookupWithStruct
    simp only [hf]
    rw [lookupWithLoop_count_two _ _ _ _ h2]
  · intro wp hmem hp h1
    unfold SymbolTable.LookupWithStruct
    simp only [hf]
    rw [lookupWithLoop_count_one _ _ _ _ wp hmem hp h1]

/-- Two record types `A{x}` and `B{x, y}` both in with-scope, for the C6
witness. -/
def c6State : SymbolTable :=
  { initSymbolTable with
    fields := [("x", 0), ("y", 1)],
    fieldtable := [SharedField.init "x" 0, SharedField.init "y" 1],
    structtable :=
      [{ name := "A", idx := 0, fields := [⟨0, 0⟩], superclassidx := -1,
         readonly := false },
       { name := "B", idx := 1, fields := [⟨0, 0⟩, ⟨0, 1⟩], superclassidx := -1,
         readonly := false }],
    withstack := [(0, 7), (1, 8)] }

/-- Witness for C6: `x` (declared by both with-scoped types) is ambiguous;
`y` (declared by one) resolves to that entry's identifier. -/
theorem c6_with_stack_witness :
    c6State.LookupWithStruct "x" = .error "access to ambiguous field: x"
    ∧ c6State.LookupWithStruct "y" = .ok (some (1, 8)) :=
  ⟨((c6_with_stack_resolution c6State "x").2 0 rfl).2.1 (by decide),
   ((c6_with_stack_resolution c6State "y").2 1 rfl).2.2 (1, 8) (by decide)
     (by decide) (by decide)⟩

/-! ### Claim C9: privacy pruning and its assertion -/

theorem mapFind_eq_none_of_forall (m : List (String × Nat)) (n : String)
    (h : ∀ q ∈ m, q.1 ≠ n) : mapFind m n = none := by
  induction m with
  | nil => rfl
  | cons q rest ih =>
    obtain ⟨k, v⟩ := q
    rw [mapFind_cons, if_neg (h (k, v) (List.mem_cons_self _ _))]
    exact ih (fun q hq => h q (List.mem_cons_of_mem _ hq))

/-- What the `EndOfInclude` loop does to the live map, entry by entry, under
the `std::map` guarantee that keys are unique. -/
theorem mapFind_filter_private (tbl : List Ident) (m : List (String × Nat))
    (n : String) (hnd : (m.map Prod.fst).Nodup) :
    mapFind (m.filter (fun p => !(tbl.getD p.2 default).isprivate)) n
      = match mapFind m n with
        | none => none
        | some i => if (tbl.getD i default).isprivate then none else some i := by
  induction m with
  | nil => rfl
  | cons p rest ih =>
    obtain ⟨k, v⟩ := p
    rw [List.map_cons, List.nodup_cons] at hnd
    obtain ⟨hk, hnd'⟩ := hnd
    by_cases hkn : k = n
    · subst hkn
      by_cases hp : (tbl.getD v default).isprivate
      · rw [List.filter_cons, if_neg (by rw [hp]; exact (by decide))]
        rw [mapFind_cons, if_pos rfl]
        show mapFind (List.filter _ rest) k
          = if (tbl.getD v default).isprivate then none else some v
        rw [if_pos hp]
        apply mapFind_eq_none_of_forall
        intro q hq hc
        exact hk (List.mem_map.mpr ⟨q, List.mem_of_mem_filter hq, hc⟩)
      · have hpf : (tbl.getD v default).isprivate = false := by
          revert hp; cases (tbl.getD v default).isprivate <;> simp
        rw [List.filter_cons, if_pos (by rw [hpf]; rfl)]
        rw [mapFind_cons, if_pos rfl, mapFind_cons, if_pos rfl]
        show some v = if (tbl.getD v default).isprivate then none else some v
        rw [hpf]
        rfl
    · rw [List.filter_cons]
      by_cases hc : (!(tbl.getD v default).isprivate) = true
      · rw [if_pos hc, mapFind_cons, mapFind_cons, if_neg hkn, if_neg hkn]
        exact ih hnd'
      · rw [if_neg hc, mapFind_cons, if_neg hkn]
        exact ih hnd'

/-- Counterexample to C9 as stated: the reachable state "outer `x`, then a
deeper private `x` shadowing it" leaves a live private binding whose `prev`
is non-null, so the `assert(!it->second->prev)` condition of `EndOfInclude`
is violated. -/
theorem c9_counterexample :
    (execOps [SymOp.scopeStart, .declareIdent "x" 1 false none,
              .scopeStart, .declareIdent "x" 2 false none, .markPrivate 1]
        initSymbolTable).map SymbolTable.EndOfIncludeCheck = .ok false := rfl

/-- C9 amended: `EndOfInclude` always removes exactly the private live
bindings (release semantics), but the asserted invariant — a private live
binding never shadows — does not hold in all reachable states, so only the
removal behaviour is kept. -/
theorem c9_end_of_include_prunes_private (st : SymbolTable) (n : String)
    (hnd : (st.idents.map Prod.fst).Nodup) :
    mapFind st.EndOfInclude.idents n
      = match mapFind st.idents n with
        | none => none
        | some i =>
          if (st.identtable.getD i default).isprivate then none else some i :=
  mapFind_filter_private st.identtable st.idents n hnd

/-- A table with a private `a` and a public `b`, for the C9 witness. -/
def c9State : SymbolTable :=
  { initSymbolTable with
    idents := [("a", 0), ("b", 1)],
    identtable := [⟨"a", 0, true, 1, 0, none, none, true, false, false, -1⟩,
                   ⟨"b", 1, false, 2, 0, none, none, true, false, false, -1⟩],
    identstack := [1, 0],
    scopelevels := [0] }

/-- Witness for the amended C9: after pruning, the private binding is gone
and the public one survives. -/
theorem c9_pruning_witness :
    mapFind c9State.EndOfInclude.idents "a" = none
    ∧ mapFind c9State.EndOfInclude.idents "b" = some 1 := by
  constructor
  · rw [c9_end_of_include_prunes_private c9State "a" (by decide)]
    rfl
  · rw [c9_end_of_include_prunes_private c9State "b" (by decide)]
    rfl

/-! ### Claim C8: `table[e.idx] is e` for every index table -/

/-- Every entry of an index table records its own position. -/
def idxOK {α : Type} [Inhabited α] (f : α → Nat) (t : List α) : Prop :=
  ∀ i, i < t.length → f (t.getD i default) = i

/-- Every value of a live-binding map is a valid index into its table. -/
def entriesBounded (m : List (String × Nat)) (len : Nat) : Prop :=
  ∀ p ∈ m, p.2 < len

/-- Every shadow link points back into the identifier table. -/
def prevBounded (t : List Ident) : Prop :=
  ∀ id ∈ t, ∀ p, id.prev = some p → p < t.length

/-- The inductive symbol-table invariant: the four index tables satisfy
`table[e.idx] is e`, the four name maps hold valid indices, and shadow
links are valid (the companion facts are what makes the index invariant
preservable). -/
def SymInv (st : SymbolTable) : Prop :=
  idxOK Ident.idx st.identtable ∧ idxOK Struct.idx st.structtable
  ∧ idxOK SharedField.idx st.fieldtable ∧ idxOK Function.idx st.functiontable
  ∧ entriesBounded st.idents st.identtable.length
  ∧ entriesBounded st.structs st.structtable.length
  ∧ entriesBounded st.fields st.fieldtable.length
  ∧ entriesBounded st.functions st.functiontable.length
  ∧ prevBounded st.identtable

theorem idxOK_append {α : Type} [Inhabited α] (f : α → Nat) (t : List α) (a : α)
    (h : idxOK f t) (ha : f a = t.length) : idxOK f (t ++ [a]) := by
  intro i hi
  rw [List.length_append, List.length_singleton] at hi
  rcases Nat.lt_succ_iff_lt_or_eq.mp hi with h' | h'
  · rw [getD_append_left _ _ _ h']
    exact h i h'
  · subst h'
    rw [getD_append_length]
    exact ha

theorem idxOK_set {α : Type} [Inhabited α] (f : α → Nat) (t : List α) (i : Nat)
    (a : α) (h : idxOK f t) (ha : f a = i) (hi : i < t.length) :
    idxOK f (t.set i a) := by
  intro j hj
  rw [List.length_set] at hj
  by_cases hij : i = j
  · subst hij
    rw [getD_set_self _ _ _ hi]
    exact ha
  · rw [getD_set_ne _ _ _ _ hij]
    exact h j hj

theorem mem_mapSet (m : List (String × Nat)) (k : String) (v : Nat) :
    ∀ p ∈ mapSet m k v, p = (k, v) ∨ p ∈ m := by
  induction m with
  | nil =>
    intro p hp
    rcases List.mem_singleton.mp hp with h
    exact Or.inl h
  | cons q rest ih =>
    obtain ⟨k', v'⟩ := q
    intro p hp
    unfold mapSet at hp
    by_cases hk : k' = k
    · rw [if_pos (by simpa using hk)] at hp
      rcases List.mem_cons.mp hp with h | h
      · exact Or.inl h
      · exact Or.inr (List.mem_cons_of_mem _ h)
    · rw [if_neg (by simpa using hk)] at hp
      rcases List.mem_cons.mp hp with h | h
      · exact Or.inr (h ▸ List.mem_cons_self _ _)
      · rcases ih p h with h' | h'
        · exact Or.inl h'
        · exact Or.inr (List.mem_cons_of_mem _ h')

theorem entriesBounded_mapSet (m : List (String × Nat)) (k : String) (v : Nat)
    (len : Nat) (h : entriesBounded m len) (hv : v < len) :
    entriesBounded (mapSet m k v) len := by
  intro p hp
  rcases mem_mapSet m k v p hp with h' | h'
  · rw [h']
    exact hv
  · exact h p h'

theorem entriesBounded_mono (m : List (String × Nat)) (len len' : Nat)
    (h : entriesBounded m len) (hle : len ≤ len') : entriesBounded m len' :=
  fun p hp => Nat.lt_of_lt_of_le (h p hp) hle

theorem entriesBounded_filter (m : List (String × Nat)) (len : Nat)
    (pred : String × Nat → Bool) (h : entriesBounded m len) :
    entriesBounded (m.filter pred) len :=
  fun p hp => h p (List.mem_of_mem_filter hp)

theorem mapFind_some_mem (m : List (String × Nat)) (k : String) (v : Nat)
    (h : mapFind m k = some v) : ∃ p ∈ m, p.2 = v := by
  unfold mapFind at h
  cases hf : m.find? (fun p => p.1 == k) with
  | none => rw [hf] at h; cases h
  | some p =>
    rw [hf] at h
    exact ⟨p, List.mem_of_find?_eq_some hf, Option.some.inj h⟩

theorem mapFind_lt (m : List (String × Nat)) (k : String) (v : Nat) (len : Nat)
    (hb : entriesBounded m len) (h : mapFind m k = some v) : v < len := by
  obtain ⟨p, hp, he⟩ := mapFind_some_mem m k v h
  exact he ▸ hb p hp

theorem prev_of_getD (t : List Ident) (ht : prevBounded t) (i q : Nat)
    (h : (t.getD i default).prev = some q) : q < t.length := by
  by_cases hi : i < t.length
  · have hmem : t.getD i default ∈ t := by
      rw [List.getD_eq_getElem?_getD, List.getElem?_eq_getElem hi]
      exact List.getElem_mem hi
    exact ht _ hmem q h
  · rw [List.getD_eq_default _ _ (Nat.le_of_not_lt hi)] at h
    cases h

theorem prevBounded_append (t : List Ident) (a : Ident) (h : prevBounded t)
    (ha : ∀ p, a.prev = some p → p < t.length + 1) : prevBounded (t ++ [a]) := by
  intro id hid p hp
  rw [List.length_append, List.length_singleton]
  rcases List.mem_append.mp hid with h' | h'
  · exact Nat.lt_of_lt_of_le (h id h' p hp) (Nat.le_succ _)
  · rw [List.mem_singleton.mp h'] at hp
    exact ha p hp

theorem prevBounded_set (t : List Ident) (i : Nat) (a : Ident)
    (h : prevBounded t) (ha : ∀ p, a.prev = some p → p < t.length) :
    prevBounded (t.set i a) := by
  intro id hid p hp
  rw [List.length_set]
  rcases List.mem_or_eq_of_mem_set hid with h' | h'
  · exact h id h' p hp
  · exact ha p (h' ▸ hp)

theorem popStep_bounded (tbl : List Ident) (m : List (String × Nat)) (i : Nat)
    (hm : entriesBounded m tbl.length) (ht : prevBounded tbl) :
    entriesBounded (popStep tbl m i) tbl.length := by
  have hzeta : popStep tbl m i =
      match mapFind m (tbl.getD i default).name with
      | none => m
      | some _ =>
        match (tbl.getD i default).prev with
        | some p => mapSet m (tbl.getD i default).name p
        | none => mapErase m (tbl.getD i default).name := rfl
  rw [hzeta]
  cases hfind : mapFind m (tbl.getD i default).name with
  | none => exact hm
  | some v =>
    cases hprev : (tbl.getD i default).prev with
    | some p =>
      exact entriesBounded_mapSet _ _ _ _ hm (prev_of_getD tbl ht i p hprev)
    | none => exact entriesBounded_filter _ _ _ hm

theorem cleanupIdents_bounded (tbl : List Ident) (target : Nat)
    (ht : prevBounded tbl) :
    ∀ (stack : List Nat) (m : List (String × Nat)),
      entriesBounded m tbl.length →
      entriesBounded (cleanupIdents tbl target stack m).2 tbl.length := by
  intro stack
  induction stack with
  | nil => intro m hm; exact hm
  | cons i rest ih =>
    intro m hm
    unfold cleanupIdents
    by_cases hc : target < rest.length + 1
    · rw [if_pos hc]
      exact ih _ (popStep_bounded tbl m i hm ht)
    · rw [if_neg hc]
      exact hm

/-- The `NewFieldUse` never changes the stored index. -/
theorem NewFieldUse_idx (sf : SharedField) (x : FieldOffset) :
    (sf.NewFieldUse x).idx = sf.idx := by
  unfold SharedField.NewFieldUse
  split <;> rfl

/-- Characterization of `LookupLexDefOrDynScope` with `dynscope = true`. -/
theorem lookupLexDef_dyn (st : SymbolTable) (name : String) (line : Int)
    (sf : Option Nat) :
    st.LookupLexDefOrDynScope name line true sf =
      match mapFind st.idents name with
      | some i => .ok (st, i)
      | none =>
        match st.LookupWithStruct name with
        | .error e => .error e
        | .ok (some _) =>
          .error ("cannot define variable with same name as field in this scope: " ++ name)
        | .ok none =>
          .ok ({ st with
                 idents := mapSet st.idents name st.identtable.length,
                 identstack := st.identtable.length :: st.identstack,
                 identtable := st.identtable ++
                   [⟨name, st.identtable.length, false, line, st.scopelevels.headD 0,
                     none, sf, true, false, false, -1⟩] }, st.identtable.length) := by
  cases hit : mapFind st.idents name with
  | some i =>
    unfold SymbolTable.LookupLexDefOrDynScope
    rw [hit]
    rfl
  | none =>
    unfold SymbolTable.LookupLexDefOrDynScope
    rw [hit]
    cases hws : st.LookupWithStruct name with
    | error e => rfl
    | ok o =>
      cases o with
      | some v => rfl
      | none => rfl

/-- Installing a fresh identifier preserves the symbol-table invariant, as
long as its shadow link (if any) is a valid index. -/
theorem SymInv_install (st : SymbolTable) (name : String) (line : Int)
    (sf : Option Nat) (prev : Option Nat)
    (hprev : ∀ p, prev = some p → p < st.identtable.length)
    (hinv : SymInv st) :
    SymInv { st with
      idents := mapSet st.idents name st.identtable.length,
      identstack := st.identtable.length :: st.identstack,
      identtable := st.identtable ++
        [⟨name, st.identtable.length, false, line, st.scopelevels.headD 0,
          prev, sf, true, false, false, -1⟩] } := by
  obtain ⟨h1, h2, h3, h4, h5, h6, h7, h8, h9⟩ := hinv
  refine ⟨?_, h2, h3, h4, ?_, h6, h7, h8, ?_⟩
  · exact idxOK_append _ _ _ h1 rfl
  · show entriesBounded (mapSet st.idents name st.identtable.length)
      (st.identtable ++ [_]).length
    rw [List.length_append, List.length_singleton]
    exact entriesBounded_mapSet _ _ _ _
      (entriesBounded_mono _ _ _ h5 (Nat.le_succ _)) (Nat.lt_succ_self _)
  · exact prevBounded_append _ _ h9 (fun p hp => Nat.lt_succ_of_lt (hprev p hp))

/-- A successful `LookupLexDefOrDynScope` preserves the invariant. -/
theorem lookupLexDef_preserves_inv (st : SymbolTable) (name : String)
    (line : Int) (dyn : Bool) (sf : Option Nat) (st1 : SymbolTable) (i : Nat)
    (h : st.LookupLexDefOrDynScope name line dyn sf = .ok (st1, i))
    (hinv : SymInv st) : SymInv st1 := by
  cases dyn with
  | true =>
    rw [lookupLexDef_dyn] at h
    cases hit : mapFind st.idents name with
    | some j =>
      simp only [hit] at h
      obtain ⟨hst, _⟩ := Prod.mk.injEq .. ▸ Except.ok.inj h
      exact hst ▸ hinv
    | none =>
      simp only [hit] at h
      cases hws : st.LookupWithStruct name with
      | error e =>
        simp only [hws] at h
        exact Except.noConfusion h
      | ok o =>
        cases o with
        | some v =>
          simp only [hws] at h
          exact Except.noConfusion h
        | none =>
          simp only [hws] at h
          obtain ⟨hst, _⟩ := Prod.mk.injEq .. ▸ Except.ok.inj h
          exact hst ▸ SymInv_install st name line sf none (fun p hp => nomatch hp) hinv
  | false =>
    rw [lookupLexDef_nodyn] at h
    cases hws : st.LookupWithStruct name with
    | error e =>
      simp only [hws] at h
      exact Except.noConfusion h
    | ok o =>
      cases o with
      | some v =>
        simp only [hws] at h
        exact Except.noConfusion h
      | none =>
        simp only [hws] at h
        cases hit : mapFind st.idents name with
        | none =>
          simp only [hit] at h
          obtain ⟨hst, _⟩ := Prod.mk.injEq .. ▸ Except.ok.inj h
          exact hst ▸ SymInv_install st name line sf none (fun p hp => nomatch hp) hinv
        | some old =>
          simp only [hit] at h
          by_cases hsc : st.scopelevels.headD 0 = (st.identtable.getD old default).scope
          · rw [if_pos hsc] at h
            exact Except.noConfusion h
          · rw [if_neg hsc] at h
            obtain ⟨hst, _⟩ := Prod.mk.injEq .. ▸ Except.ok.inj h
            have hold : old < st.identtable.length :=
              mapFind_lt _ _ _ _ hinv.2.2.2.2.1 hit
            exact hst ▸ SymInv_install st name line sf (some old)
              (fun p hp => (Option.some.inj hp) ▸ hold) hinv

/-- Claim C8: for every entity created by a declaration operation,
`e.idx` is its position in its owning append-only index table, and
`table[e.idx] is e` is preserved by every symbol-table operation — scope
cleanup, privacy pruning and unregistering only remove map entries, never
index-table entries. -/
theorem c8_index_invariant_preserved (op : SymOp) (st st' : SymbolTable)
    (hinv : SymInv st) (hstep : stepOp op st = .ok st') : SymInv st' := by
  cases op with
  | scopeStart =>
    have hst : st.ScopeStart = st' := Except.ok.inj hstep
    exact hst ▸ hinv
  | scopeEnd =>
    have hst : st.ScopeCleanup = st' := Except.ok.inj hstep
    subst hst
    obtain ⟨h1, h2, h3, h4, h5, h6, h7, h8, h9⟩ := hinv
    exact ⟨h1, h2, h3, h4, cleanupIdents_bounded _ _ h9 _ _ h5, h6, h7, h8, h9⟩
  | declareIdent name line dyn sf =>
    simp only [stepOp] at hstep
    cases hl : st.LookupLexDefOrDynScope name line dyn sf with
    | error e =>
      rw [hl] at hstep
      exact Except.noConfusion hstep
    | ok p =>
      obtain ⟨st1, i⟩ := p
      rw [hl] at hstep
      have hst : st1 = st' := Except.ok.inj hstep
      exact hst ▸ lookupLexDef_preserves_inv st name line dyn sf st1 i hl hinv
  | structDecl name =>
    simp only [stepOp, SymbolTable.StructDecl] at hstep
    cases hfind : mapFind st.structs name with
    | some v =>
      simp only [hfind] at hstep
      exact Except.noConfusion hstep
    | none =>
      simp only [hfind] at hstep
      have hst := Except.ok.inj hstep
      subst hst
      obtain ⟨h1, h2, h3, h4, h5, h6, h7, h8, h9⟩ := hinv
      refine ⟨h1, ?_, h3, h4, h5, ?_, h7, h8, h9⟩
      · exact idxOK_append _ _ _ h2 rfl
      · show entriesBounded (mapSet st.structs name st.structtable.length)
          (st.structtable ++ [_]).length
        rw [List.length_append, List.length_singleton]
        exact entriesBounded_mapSet _ _ _ _
          (entriesBounded_mono _ _ _ h6 (Nat.le_succ _)) (Nat.lt_succ_self _)
  | fieldDecl name idx stidx =>
    simp only [stepOp, SymbolTable.FieldDecl] at hstep
    cases hfind : mapFind st.fields name with
    | some fi =>
      simp only [hfind] at hstep
      have hst := Except.ok.inj hstep
      subst hst
      obtain ⟨h1, h2, h3, h4, h5, h6, h7, h8, h9⟩ := hinv
      have hfi : fi < st.fieldtable.length := mapFind_lt _ _ _ _ h7 hfind
      refine ⟨h1, h2, ?_, h4, h5, h6, ?_, h8, h9⟩
      · refine idxOK_set _ _ _ _ h3 ?_ hfi
        rw [NewFieldUse_idx]
        exact h3 fi hfi
      · show entriesBounded st.fields (st.fieldtable.set fi _).length
        rw [List.length_set]
        exact h7
    | none =>
      simp only [hfind] at hstep
      have hst := Except.ok.inj hstep
      subst hst
      obtain ⟨h1, h2, h3, h4, h5, h6, h7, h8, h9⟩ := hinv
      refine ⟨h1, h2, ?_, h4, h5, h6, ?_, h8, h9⟩
      · refine idxOK_append _ _ _ h3 ?_
        rw [NewFieldUse_idx]
        rfl
      · show entriesBounded (mapSet st.fields name st.fieldtable.length)
          (st.fieldtable ++ [_]).length
        rw [List.length_append, List.length_singleton]
        exact entriesBounded_mapSet _ _ _ _
          (entriesBounded_mono _ _ _ h7 (Nat.le_succ _)) (Nat.lt_succ_self _)
  | functionDecl name nargs =>
    simp only [stepOp] at hstep
    cases hfd : st.FunctionDecl name nargs with
    | error e =>
      rw [hfd] at hstep
      exact Except.noConfusion hstep
    | ok p =>
      rw [hfd] at hstep
      have hst : p.1 = st' := Except.ok.inj hstep
      unfold SymbolTable.FunctionDecl at hfd
      cases hfind : mapFind st.functions name with
      | none =>
        simp only [hfind] at hfd
        have hp := Except.ok.inj hfd
        rw [← hp] at hst
        subst hst
        obtain ⟨h1, h2, h3, h4, h5, h6, h7, h8, h9⟩ := hinv
        refine ⟨h1, h2, h3, ?_, h5, h6, h7, ?_, h9⟩
        · exact idxOK_append _ _ _ h4 rfl
        · show entriesBounded (mapSet st.functions name st.functiontable.length)
            (st.functiontable ++ [_]).length
          rw [List.length_append, List.length_singleton]
          exact entriesBounded_mapSet _ _ _ _
            (entriesBounded_mono _ _ _ h8 (Nat.le_succ _)) (Nat.lt_succ_self _)
      | some head =>
        simp only [hfind] at hfd
        have hhead : head < st.functiontable.length :=
          mapFind_lt _ _ _ _ hinv.2.2.2.2.2.2.2.1 hfind
        by_cases hsl : (st.functiontable.getD head default).scopelevel
            ≠ st.scopelevels.length
        · rw [if_pos hsl] at hfd
          exact Except.noConfusion hfd
        · rw [if_neg hsl] at hfd
          cases hfa : findArity st.functiontable nargs st.functiontable.length
              (some head) with
          | some fi =>
            simp only [hfa] at hfd
            have hp := Except.ok.inj hfd
            rw [← hp] at hst
            subst hst
            exact hinv
          | none =>
            simp only [hfa] at hfd
            have hp := Except.ok.inj hfd
            rw [← hp] at hst
            subst hst
            obtain ⟨h1, h2, h3, h4, h5, h6, h7, h8, h9⟩ := hinv
            refine ⟨h1, h2, h3, ?_, h5, h6, h7, ?_, h9⟩
            · refine idxOK_set _ _ _ _ (idxOK_append _ _ _ h4 rfl) ?_ ?_
              · show (st.functiontable.getD head default).idx = head
                exact h4 head hhead
              · rw [List.length_append, List.length_singleton]
                exact Nat.lt_succ_of_lt hhead
            · show entriesBounded st.functions
                ((st.functiontable ++ [_]).set head _).length
              rw [List.length_set, List.length_append, List.length_singleton]
              exact entriesBounded_mono _ _ _ h8 (Nat.le_succ _)
  | addWithStruct t id =>
    simp only [stepOp, SymbolTable.AddWithStruct] at hstep
    by_cases hc : (st.withstack.any (fun wp => wp.1 == t)) = true
    · rw [if_pos hc] at hstep
      exact Except.noConfusion hstep
    · rw [if_neg hc] at hstep
      have hst := Except.ok.inj hstep
      exact hst ▸ hinv
  | endOfInclude =>
    have hst : st.EndOfInclude = st' := Except.ok.inj hstep
    subst hst
    obtain ⟨h1, h2, h3, h4, h5, h6, h7, h8, h9⟩ := hinv
    exact ⟨h1, h2, h3, h4, entriesBounded_filter _ _ _ h5, h6, h7, h8, h9⟩
  | unregisterStruct sidx =>
    have hst : st.UnregisterStruct sidx = st' := Except.ok.inj hstep
    subst hst
    obtain ⟨h1, h2, h3, h4, h5, h6, h7, h8, h9⟩ := hinv
    exact ⟨h1, h2, h3, h4, h5, entriesBounded_filter _ _ _ h6, h7, h8, h9⟩
  | unregisterFun fidx =>
    have hst : st.UnregisterFun fidx = st' := Except.ok.inj hstep
    subst hst
    obtain ⟨h1, h2, h3, h4, h5, h6, h7, h8, h9⟩ := hinv
    exact ⟨h1, h2, h3, h4, h5, h6, h7, entriesBounded_filter _ _ _ h8, h9⟩
  | markPrivate i =>
    have hst := Except.ok.inj hstep
    subst hst
    obtain ⟨h1, h2, h3, h4, h5, h6, h7, h8, h9⟩ := hinv
    by_cases hi : i < st.identtable.length
    · refine ⟨?_, h2, h3, h4, ?_, h6, h7, h8, ?_⟩
      · refine idxOK_set _ _ _ _ h1 ?_ hi
        show (st.identtable.getD i default).idx = i
        exact h1 i hi
      · show entriesBounded st.idents (st.identtable.set i _).length
        rw [List.length_set]
        exact h5
      · refine prevBounded_set _ _ _ h9 ?_
        intro p hp
        exact prev_of_getD _ h9 i p hp
    · rw [List.set_eq_of_length_le (Nat.le_of_not_lt hi)]
      exact ⟨h1, h2, h3, h4, h5, h6, h7, h8, h9⟩

/-- The `SymInv` holds for the freshly constructed table. -/
theorem SymInv_init : SymInv initSymbolTable := by
  refine ⟨?_, ?_, ?_, ?_, ?_, ?_, ?_, ?_, ?_⟩
  · intro i h; exact absurd h (Nat.not_lt_zero i)
  · intro i h; exact absurd h (Nat.not_lt_zero i)
  · intro i h; exact absurd h (Nat.not_lt_zero i)
  · intro i h; exact absurd h (Nat.not_lt_zero i)
  · intro p hp; exact absurd hp (List.not_mem_nil p)
  · intro p hp; exact absurd hp (List.not_mem_nil p)
  · intro p hp; exact absurd hp (List.not_mem_nil p)
  · intro p hp; exact absurd hp (List.not_mem_nil p)
  · intro id hid; exact absurd hid (List.not_mem_nil id)

/-- The table after `StructDecl "A"` on a fresh table, for the C8 witness. -/
def c8State : SymbolTable :=
  { initSymbolTable with
    structs := [("A", 0)],
    structtable := [{ name := "A", idx := 0, fields := [], superclassidx := -1,
                      readonly := false }] }

/-- Witness for C8 at a concrete declaration step. -/
theorem c8_invariant_witness : SymInv c8State :=
  c8_index_invariant_preserved (.structDecl "A") initSymbolTable c8State
    SymInv_init rfl

/-! ### Claim C1: a matching `ScopeCleanup` restores the live bindings -/

/-- Zeta-free unfolding of the `ScopeCleanup` loop body. -/
theorem popStep_eq (tbl : List Ident) (m : List (String × Nat)) (i : Nat) :
    popStep tbl m i =
      match mapFind m (tbl.getD i default).name with
      | none => m
      | some _ =>
        match (tbl.getD i default).prev with
        | some p => mapSet m (tbl.getD i default).name p
        | none => mapErase m (tbl.getD i default).name := rfl

/-- Popping a whole block of identifiers (head = most recent) off the live
map. -/
def popAll (tbl : List Ident) : List Nat → List (String × Nat) → List (String × Nat)
  | [], m => m
  | i :: Δ, m => popAll tbl Δ (popStep tbl m i)

theorem popAll_append (tbl : List Ident) (a b : List Nat) :
    ∀ m, popAll tbl (a ++ b) m = popAll tbl b (popAll tbl a m) := by
  induction a with
  | nil => intro m; rfl
  | cons i a' ih => intro m; exact ih (popStep tbl m i)

theorem popStep_congr (tbl : List Ident) (m1 m2 : List (String × Nat)) (i : Nat)
    (h : ∀ n, mapFind m1 n = mapFind m2 n) :
    ∀ n, mapFind (popStep tbl m1 i) n = mapFind (popStep tbl m2 i) n := by
  intro n
  rw [popStep_eq, popStep_eq, h (tbl.getD i default).name]
  cases hf : mapFind m2 (tbl.getD i default).name with
  | none => exact h n
  | some v =>
    cases (tbl.getD i default).prev with
    | some p =>
      rw [mapFind_mapSet, mapFind_mapSet]
      by_cases hn : n = (tbl.getD i default).name
      · rw [if_pos hn, if_pos hn]
      · rw [if_neg hn, if_neg hn]
        exact h n
    | none =>
      rw [mapFind_mapErase, mapFind_mapErase]
      by_cases hn : n = (tbl.getD i default).name
      · rw [if_pos hn, if_pos hn]
      · rw [if_neg hn, if_neg hn]
        exact h n

theorem popAll_congr (tbl : List Ident) (Δ : List Nat) :
    ∀ m1 m2, (∀ n, mapFind m1 n = mapFind m2 n) →
      ∀ n, mapFind (popAll tbl Δ m1) n = mapFind (popAll tbl Δ m2) n := by
  induction Δ with
  | nil => intro m1 m2 h n; exact h n
  | cons i Δ' ih =>
    intro m1 m2 h n
    exact ih _ _ (popStep_congr tbl m1 m2 i h) n

theorem popStep_table_ext (tbl ext : List Ident) (m : List (String × Nat))
    (i : Nat) (h : i < tbl.length) :
    popStep (tbl ++ ext) m i = popStep tbl m i := by
  rw [popStep_eq, popStep_eq, getD_append_left _ _ _ h]

theorem popAll_table_ext (tbl ext : List Ident) (Δ : List Nat)
    (hb : ∀ i ∈ Δ, i < tbl.length) :
    ∀ m, popAll (tbl ++ ext) Δ m = popAll tbl Δ m := by
  induction Δ with
  | nil => intro m; rfl
  | cons i Δ' ih =>
    intro m
    show popAll (tbl ++ ext) Δ' (popStep (tbl ++ ext) m i) = _
    rw [popStep_table_ext _ _ _ _ (hb i (List.mem_cons_self _ _))]
    exact ih (fun j hj => hb j (List.mem_cons_of_mem _ hj)) _

/-- The `ScopeCleanup` loop pops exactly the block above the snapshot. -/
theorem cleanupIdents_spec (tbl : List Ident) (target : Nat) (Δ s : List Nat)
    (m : List (String × Nat)) (hs : s.length = target) :
    cleanupIdents tbl target (Δ ++ s) m = (s, popAll tbl Δ m) := by
  induction Δ generalizing m with
  | nil =>
    cases s with
    | nil =>
      subst hs
      rfl
    | cons i rest =>
      rw [List.length_cons] at hs
      show cleanupIdents tbl target (i :: rest) m = _
      unfold cleanupIdents
      rw [if_neg (by omega)]
      rfl
  | cons i Δ' ih =>
    rw [List.cons_append]
    show cleanupIdents tbl target (i :: (Δ' ++ s)) m = _
    unfold cleanupIdents
    rw [if_pos (by rw [List.length_append]; omega)]
    exact ih _

theorem execOps_append (a b : List SymOp) :
    ∀ st, execOps (a ++ b) st =
      match execOps a st with
      | .error e => .error e
      | .ok st1 => execOps b st1 := by
  induction a with
  | nil => intro st; rfl
  | cons op rest ih =>
    intro st
    rw [List.cons_append]
    cases hstep : stepOp op st with
    | error e => simp only [execOps, hstep]
    | ok st1 =>
      simp only [execOps, hstep]
      exact ih st1

/-- Closing a scope from a state whose new identifier block `Δ1` is known to
restore the outer live map restores the whole identifier/with-scope state of
the table at `ScopeStart` time (the identifier index table only grows). -/
theorem scope_cycle_of_facts (st st1 : SymbolTable) (Δ1 : List Nat)
    (hslv : st1.scopelevels = st.identstack.length :: st.scopelevels)
    (hwsl : st1.withstacklevels = st.withstack.length :: st.withstacklevels)
    (hws : st1.withstack = st.withstack)
    (hstk : st1.identstack = Δ1 ++ st.identstack)
    (hmap : ∀ n, mapFind (popAll st1.identtable Δ1 st1.idents) n
      = mapFind st.idents n) :
    st1.ScopeCleanup.scopelevels = st.scopelevels
    ∧ st1.ScopeCleanup.withstacklevels = st.withstacklevels
    ∧ st1.ScopeCleanup.withstack = st.withstack
    ∧ st1.ScopeCleanup.identstack = st.identstack
    ∧ st1.ScopeCleanup.identtable = st1.identtable
    ∧ (∀ n, mapFind st1.ScopeCleanup.idents n = mapFind st.idents n) := by
  have hclean : cleanupIdents st1.identtable (st1.scopelevels.headD 0)
      st1.identstack st1.idents = (st.identstack, popAll st1.identtable Δ1 st1.idents) := by
    rw [hstk, hslv]
    exact cleanupIdents_spec _ _ _ _ _ rfl
  refine ⟨?_, ?_, ?_, ?_, rfl, ?_⟩
  · show st1.scopelevels.tail = st.scopelevels
    rw [hslv]
    rfl
  · show st1.withstacklevels.tail = st.withstacklevels
    rw [hwsl]
    rfl
  · show st1.withstack.take (st1.withstacklevels.headD 0) = st.withstack
    rw [hws, hwsl]
    exact List.take_length st.withstack
  · show (cleanupIdents st1.identtable (st1.scopelevels.headD 0)
      st1.identstack st1.idents).1 = st.identstack
    rw [hclean]
  · intro n
    show mapFind (cleanupIdents st1.identtable (st1.scopelevels.headD 0)
      st1.identstack st1.idents).2 n = mapFind st.idents n
    rw [hclean]
    exact hmap n

/-- The `Ident` a successful declare creates. -/
def newIdent (st : SymbolTable) (name : String) (line : Int) (sf : Option Nat)
    (prev : Option Nat) : Ident :=
  ⟨name, st.identtable.length, false, line, st.scopelevels.headD 0, prev, sf,
   true, false, false, -1⟩

/-- The state a successful declare produces. -/
def installIdent (st : SymbolTable) (name : String) (line : Int) (sf : Option Nat)
    (prev : Option Nat) : SymbolTable :=
  { st with
    idents := mapSet st.idents name st.identtable.length,
    identstack := st.identtable.length :: st.identstack,
    identtable := st.identtable ++ [newIdent st name line sf prev] }

/-- Shape of every successful non-dynamic declare: a fresh `Ident` is
installed, shadowing (`prev = some old`) exactly when the name had a live
binding. -/
theorem lookupLexDef_nodyn_ok (st : SymbolTable) (name : String) (line : Int)
    (sf : Option Nat) (st1 : SymbolTable) (i : Nat)
    (h : st.LookupLexDefOrDynScope name line false sf = .ok (st1, i)) :
    ∃ prev, ((prev = none ∧ mapFind st.idents name = none)
             ∨ (∃ old, prev = some old ∧ mapFind st.idents name = some old))
      ∧ st1 = installIdent st name line sf prev := by
  rw [lookupLexDef_nodyn] at h
  cases hws : st.LookupWithStruct name with
  | error e =>
    simp only [hws] at h
    exact Except.noConfusion h
  | ok o =>
    cases o with
    | some v =>
      simp only [hws] at h
      exact Except.noConfusion h
    | none =>
      simp only [hws] at h
      cases hit : mapFind st.idents name with
      | none =>
        simp only [hit] at h
        obtain ⟨hst, _⟩ := Prod.mk.injEq .. ▸ Except.ok.inj h
        exact ⟨none, Or.inl ⟨rfl, rfl⟩, hst.symm⟩
      | some old =>
        simp only [hit] at h
        by_cases hsc : st.scopelevels.headD 0 = (st.identtable.getD old default).scope
        · rw [if_pos hsc] at h
          exact Except.noConfusion h
        · rw [if_neg hsc] at h
          obtain ⟨hst, _⟩ := Prod.mk.injEq .. ▸ Except.ok.inj h
          exact ⟨some old, Or.inr ⟨old, rfl, rfl⟩, hst.symm⟩

/-- Popping a freshly installed identifier restores the live map exactly. -/
theorem popStep_undoes_install (st : SymbolTable) (name : String) (line : Int)
    (sf : Option Nat) (prev : Option Nat) (ext : List Ident)
    (hprev : (prev = none ∧ mapFind st.idents name = none)
             ∨ (∃ old, prev = some old ∧ mapFind st.idents name = some old)) :
    ∀ n, mapFind (popStep (st.identtable ++ [newIdent st name line sf prev] ++ ext)
        (mapSet st.idents name st.identtable.length) st.identtable.length) n
      = mapFind st.idents n := by
  intro n
  have hgd : (st.identtable ++ [newIdent st name line sf prev] ++ ext).getD
      st.identtable.length default = newIdent st name line sf prev := by
    rw [List.append_assoc, List.singleton_append]
    exact getD_append_length _ _ _
  have hname : (newIdent st name line sf prev).name = name := rfl
  have hprev' : (newIdent st name line sf prev).prev = prev := rfl
  rw [popStep_eq, hgd, hname, hprev', mapFind_mapSet, if_pos rfl]
  rcases hprev with ⟨hpn, hfn⟩ | ⟨old, hpo, hfo⟩
  · rw [hpn]
    show mapFind (mapErase (mapSet st.idents name st.identtable.length) name) n
      = mapFind st.idents n
    rw [mapFind_mapErase]
    by_cases hn : n = name
    · rw [if_pos hn, hn, hfn]
    · rw [if_neg hn, mapFind_mapSet, if_neg hn]
  · rw [hpo]
    show mapFind (mapSet (mapSet st.idents name st.identtable.length) name old) n
      = mapFind st.idents n
    rw [mapFind_mapSet]
    by_cases hn : n = name
    · rw [if_pos hn, hn, hfo]
    · rw [if_neg hn, mapFind_mapSet, if_neg hn]

/-- Main induction for claim C1: a balanced block of non-dynamic declares
and nested scopes leaves the surrounding scope stack and with-stack alone,
only appends to the identifier index table, and its new identifier-stack
block, once popped, restores the live map that was in force when the block
began. -/
theorem bal_exec {ops : List SymOp} (hb : Balanced ops) :
    ∀ st st', execOps ops st = .ok st' →
      st'.scopelevels = st.scopelevels
      ∧ st'.withstacklevels = st.withstacklevels
      ∧ st'.withstack = st.withstack
      ∧ (∃ Γ, st'.identtable = st.identtable ++ Γ)
      ∧ (∃ Δ, st'.identstack = Δ ++ st.identstack
          ∧ (∀ i ∈ Δ, st.identtable.length ≤ i ∧ i < st'.identtable.length)
          ∧ (∀ n, mapFind (popAll st'.identtable Δ st'.idents) n
              = mapFind st.idents n)) := by
  induction hb with
  | nil =>
    intro st st' h
    have hst : st = st' := Except.ok.inj h
    subst hst
    refine ⟨rfl, rfl, rfl, ⟨[], (List.append_nil _).symm⟩, ⟨[], rfl, ?_, ?_⟩⟩
    · intro i hi
      exact absurd hi (List.not_mem_nil i)
    · intro n
      rfl
  | decl name line sf hb' ih =>
    intro st st' h
    simp only [execOps, stepOp] at h
    cases hl : st.LookupLexDefOrDynScope name line false sf with
    | error e =>
      simp only [hl] at h
      exact Except.noConfusion h
    | ok p =>
      obtain ⟨st1, i⟩ := p
      simp only [hl] at h
      obtain ⟨prev, hprev, hst1⟩ := lookupLexDef_nodyn_ok st name line sf st1 i hl
      obtain ⟨hslv, hwsl, hws, ⟨Γ', hΓ'⟩, ⟨Δ', hΔ', hbnd', hmap'⟩⟩ := ih st1 st' h
      rw [hst1] at hslv hwsl hws hΓ' hΔ' hbnd' hmap'
      refine ⟨hslv, hwsl, hws, ?_, ?_⟩
      · refine ⟨newIdent st name line sf prev :: Γ', ?_⟩
        rw [hΓ']
        show (st.identtable ++ [newIdent st name line sf prev]) ++ Γ'
          = st.identtable ++ (newIdent st name line sf prev :: Γ')
        rw [List.append_assoc, List.singleton_append]
      · refine ⟨Δ' ++ [st.identtable.length], ?_, ?_, ?_⟩
        · rw [hΔ']
          show Δ' ++ (st.identtable.length :: st.identstack)
            = (Δ' ++ [st.identtable.length]) ++ st.identstack
          exact List.append_cons _ _ _
        · intro j hj
          rcases List.mem_append.mp hj with hj' | hj'
          · obtain ⟨hlo, hhi⟩ := hbnd' j hj'
            refine ⟨Nat.le_trans ?_ hlo, hhi⟩
            show st.identtable.length
              ≤ (st.identtable ++ [newIdent st name line sf prev]).length
            rw [List.length_append]
            exact Nat.le_add_right _ _
          · rw [List.mem_singleton.mp hj']
            refine ⟨Nat.le_refl _, ?_⟩
            rw [hΓ']
            show st.identtable.length
              < ((st.identtable ++ [newIdent st name line sf prev]) ++ Γ').length
            rw [List.length_append, List.length_append, List.length_singleton]
            omega
        · intro n
          rw [popAll_append]
          show mapFind (popStep st'.identtable
            (popAll st'.identtable Δ' st'.idents) st.identtable.length) n
            = mapFind st.idents n
          rw [popStep_congr st'.identtable _ _ st.identtable.length hmap' n]
          rw [hΓ']
          exact popStep_undoes_install st name line sf prev Γ' hprev n
  | nest hinner hrest ih_inner ih_rest =>
    rename_i inner rest
    intro st st' h
    simp only [execOps, stepOp] at h
    rw [List.append_eq, execOps_append] at h
    cases hin : execOps inner st.ScopeStart with
    | error e =>
      simp only [hin] at h
      exact Except.noConfusion h
    | ok st1 =>
      simp only [hin] at h
      simp only [execOps, stepOp] at h
      obtain ⟨hslv1, hwsl1, hws1, ⟨Γ1, hΓ1⟩, ⟨Δ1, hΔ1, hbnd1, hmap1⟩⟩ :=
        ih_inner _ _ hin
      obtain ⟨h2slv, h2wsl, h2ws, h2stk, h2tbl, h2map⟩ :=
        scope_cycle_of_facts st st1 Δ1 hslv1 hwsl1 hws1 hΔ1 hmap1
      obtain ⟨h3slv, h3wsl, h3ws, ⟨Γr, hΓr⟩, ⟨Δr, hΔr, hbndr, hmapr⟩⟩ :=
        ih_rest _ _ h
      refine ⟨h3slv.trans h2slv, h3wsl.trans h2wsl, h3ws.trans h2ws, ?_, ?_⟩
      · refine ⟨Γ1 ++ Γr, ?_⟩
        rw [hΓr, h2tbl, hΓ1]
        show (st.identtable ++ Γ1) ++ Γr = st.identtable ++ (Γ1 ++ Γr)
        exact List.append_assoc _ _ _
      · refine ⟨Δr, ?_, ?_, ?_⟩
        · rw [hΔr, h2stk]
        · intro i hi
          obtain ⟨hlo, hhi⟩ := hbndr i hi
          refine ⟨Nat.le_trans ?_ hlo, hhi⟩
          rw [h2tbl, hΓ1]
          show st.identtable.length ≤ (st.identtable ++ Γ1).length
          rw [List.length_append]
          exact Nat.le_add_right _ _
        · intro n
          exact (hmapr n).trans (h2map n)

/-- Claim C1: for every balanced block of non-dynamic, collision-free
identifier declarations and nested scopes, executing
`scope_start; block; scope_end` successfully leaves `lookup_maybe` giving,
for every name, exactly the binding that was live immediately before the
`scope_start` — the shadowed outer `Ident` when one existed, nothing when
the name was unbound. -/
theorem c1_scope_end_restores_lookup (ops : List SymOp) (st st' : SymbolTable)
    (hb : Balanced ops)
    (h : execOps (SymOp.scopeStart :: ops ++ [SymOp.scopeEnd]) st = .ok st') :
    ∀ name, st'.LookupLexMaybe name = st.LookupLexMaybe name := by
  intro name
  simp only [execOps, stepOp] at h
  rw [List.append_eq, execOps_append] at h
  cases hin : execOps ops st.ScopeStart with
  | error e =>
    simp only [hin] at h
    exact Except.noConfusion h
  | ok st1 =>
    simp only [hin] at h
    simp only [execOps, stepOp] at h
    have hst : st1.ScopeCleanup = st' := Except.ok.inj h
    obtain ⟨hslv1, hwsl1, hws1, ⟨Γ1, hΓ1⟩, ⟨Δ1, hΔ1, hbnd1, hmap1⟩⟩ :=
      bal_exec hb _ _ hin
    obtain ⟨_, _, _, _, _, h2map⟩ :=
      scope_cycle_of_facts st st1 Δ1 hslv1 hwsl1 hws1 hΔ1 hmap1
    rw [← hst]
    exact h2map name

/-- A table with an outer `x` live and one open scope, for the C1 witness. -/
def c1State : SymbolTable :=
  { initSymbolTable with
    idents := [("x", 0)],
    identtable := [⟨"x", 0, false, 1, 0, none, none, true, false, false, -1⟩],
    identstack := [0],
    scopelevels := [0],
    withstacklevels := [0] }

/-- The table after `scope_start; declare x; scope_end` over `c1State`: the
shadowing `x` is popped and the outer binding is live again. -/
def c1StateAfter : SymbolTable :=
  { initSymbolTable with
    idents := [("x", 0)],
    identtable := [⟨"x", 0, false, 1, 0, none, none, true, false, false, -1⟩,
                   ⟨"x", 1, false, 2, 1, some 0, none, true, false, false, -1⟩],
    identstack := [0],
    scopelevels := [0],
    withstacklevels := [0] }

/-- Witness for C1: after the scope that shadowed `x` ends, `lookup_maybe`
returns the outer binding again. -/
theorem c1_scope_end_witness :
    c1StateAfter.LookupLexMaybe "x" = c1State.LookupLexMaybe "x"
    ∧ c1State.LookupLexMaybe "x" = some 0 :=
  ⟨c1_scope_end_restores_lookup [SymOp.declareIdent "x" 2 false none] c1State
      c1StateAfter (Balanced.decl "x" 2 none Balanced.nil) rfl "x",
   by decide⟩

end Idents
